import Mathlib

/-
Verification of the yaap command-line argument parser (yaap.h).

The embedding translates the classes yaap::Option, yaap::OptionArg<T,N> and
yaap::Parser into pure Lean definitions.  Argument tokens are NUL-free lists
of characters (the contents of the C strings in argv); indexed reads argv[i]
and argv[i][c] that the C++ code performs are modeled by total functions that
return the empty token, respectively the NUL terminator, out of range -
exactly what the code reads in the executed in-range cases and at the
terminator position of a string.

The extraction operator argStream >> arg of Parser::AddOptionArg is modeled
abstractly by a function conv : List Char -> T x Bool giving the value left
in arg and the success flag (the negation of argStream.fail()); every theorem
below is proved for an arbitrary such conversion.
-/

namespace yaap

/-- Character of a token at position i, as read by argv[i][c] in C: tokens
model NUL-free C strings, and reading at the end of the string yields the NUL
terminator. -/
def charAt (t : List Char) (i : Nat) : Char :=
  t.getD i (Char.ofNat 0)

/-- Token at index i of the argument vector, argv[i]. Reads executed by the
code are in range whenever nbArgs is the length of argv. -/
def argAt (argv : List (List Char)) (i : Nat) : List Char :=
  argv.getD i []

/-- Embeds class yaap::Option (yaap.h lines 46-106): flag character,
description, state (present in the command line), required, error. -/
structure Option where
  flag : Char
  description : String
  state : Bool
  required : Bool
  error : Bool

/-- Constructor Option(char, std::string) (lines 49-56): state, required and
error start false. -/
def Option.init (flag : Char) (description : String) : Option :=
  ⟨flag, description, false, false, false⟩

/-- Setter Exists(bool) (lines 63-65). -/
def Option.SetExists (o : Option) (s : Bool) : Option :=
  { o with state := s }

/-- Getter Exists() (lines 67-69): true if the option is present in the
command line. -/
def Option.Exists (o : Option) : Bool := o.state

/-- Option::SetRequired (lines 72-74). -/
def Option.SetRequired (o : Option) (r : Bool) : Option :=
  { o with required := r }

/-- Option::RaiseError (lines 77-79): sets the error flag to true. -/
def Option.RaiseError (o : Option) : Option :=
  { o with error := true }

/-- Option::ErrorFlag (lines 82-84). -/
def Option.ErrorFlag (o : Option) : Bool := o.error

/-- Option::IsRequired (lines 86-88). -/
def Option.IsRequired (o : Option) : Bool := o.required

/-- Option::GetDescription (lines 96-98). -/
def Option.GetDescription (o : Option) : String := o.description

/-- Inner character loop body of Parser::AddOption (lines 179-185): each
character of the token, starting at position 0, is compared with the option's
flag; a match sets the state to true. -/
def aoCharStep (o : Option) (ch : Char) : Option :=
  if ch == o.flag then o.SetExists true else o

/-- Body of the outer loop of Parser::AddOption at index i (lines 174-187): if
argv[i] starts with a dash it is an option statement and its characters are
scanned from position 0 up to the terminator. -/
def aoStep (argv : List (List Char)) (o : Option) (i : Nat) : Option :=
  if charAt (argAt argv i) 0 == '-' then (argAt argv i).foldl aoCharStep o
  else o

/-- Embeds class yaap::OptionArg<T,N> (lines 114-145). nbArgs is the field set
to N by the constructor; argVector models the member array T argVector[N]. -/
structure OptionArg (T : Type) where
  toOption : Option
  nbArgs : Nat
  argVector : List T

variable {T : Type}

/-- Constructor OptionArg(char, std::string) (lines 119-122). The constructor
does not initialize the member array T argVector[N]; for arithmetic T its
contents after construction are the indeterminate values already in memory.
The parameter uninit (of intended length N) models those construction-time
contents. -/
def OptionArg.init (flag : Char) (description : String) (N : Nat)
    (uninit : List T) : OptionArg T :=
  ⟨Option.init flag description, N, uninit⟩

/-- OptionArg::SetArgument (lines 125-127): argVector[pos] = arg. -/
def OptionArg.SetArgument (o : OptionArg T) (arg : T) (pos : Nat) : OptionArg T :=
  { o with argVector := o.argVector.set pos arg }

/-- OptionArg::GetArgument (lines 129-131): read of argVector[pos]. -/
def OptionArg.GetArgument [Inhabited T] (o : OptionArg T) (pos : Nat) : T :=
  o.argVector.getD pos default

/-- SetRequired on an OptionArg acts on the base Option subobject. -/
def OptionArg.SetRequired (o : OptionArg T) (r : Bool) : OptionArg T :=
  { o with toOption := o.toOption.SetRequired r }

/-- Exists(bool) on an OptionArg acts on the base Option subobject. -/
def OptionArg.SetExists (o : OptionArg T) (s : Bool) : OptionArg T :=
  { o with toOption := o.toOption.SetExists s }

/-- RaiseError on an OptionArg acts on the base Option subobject. -/
def OptionArg.RaiseError (o : OptionArg T) : OptionArg T :=
  { o with toOption := o.toOption.RaiseError }

/-- Getter Exists() inherited from Option. -/
def OptionArg.Exists (o : OptionArg T) : Bool := o.toOption.state

/-- ErrorFlag inherited from Option. -/
def OptionArg.ErrorFlag (o : OptionArg T) : Bool := o.toOption.error

/-- Snapshot of an option as stored in Parser::optionVector: the dynamic type
of the stored object decides which virtual CLUsage runs, so the snapshot
records the base Option state and, for an OptionArg, its nbArgs field. -/
inductive StoredOpt where
  | plain (o : Option)
  | withArgs (o : Option) (nbArgs : Nat)

/-- Base Option state of a stored option. -/
def StoredOpt.base : StoredOpt → Option
  | .plain o => o
  | .withArgs o _ => o

/-- Embeds the fields of class yaap::Parser (lines 289-294). -/
structure Parser where
  nbArgs : Nat
  argv : List (List Char)
  optionVector : List StoredOpt
  error : Bool
  description : String

/-- Parser constructor (lines 152-158); in a process invocation argc is the
length of argv, so nbArgs is initialized to the length of the token list. -/
def Parser.init (argv : List (List Char)) (description : String) : Parser :=
  { nbArgs := argv.length, argv := argv, optionVector := [], error := false,
    description := description }

/-- Parser::AddOption (lines 169-198). The C++ vector stores a pointer to the
option, so the stored entry reflects the required-but-absent mutation
performed after push_back; the embedding therefore stores the final
snapshot. -/
def Parser.AddOption (p : Parser) (flag : Char) (description : String)
    (required : Bool) : Parser × Option :=
  let o := (Option.init flag description).SetRequired required
  let o := (List.range' 1 (p.nbArgs - 1)).foldl (aoStep p.argv) o
  let r := if !o.Exists && required then (o.RaiseError, true) else (o, p.error)
  ({ p with optionVector := p.optionVector ++ [StoredOpt.plain r.1],
            error := r.2 }, r.1)

/-- Body of the sub-argument loop of Parser::AddOptionArg for loop counter
argIdx = k + 1 (lines 226-239): convert argv[i + argIdx]; on conversion
failure raise the option error and the parser error; in every case store the
value left by the extraction at slot argIdx - 1. -/
def oaInnerStep (conv : List Char → T × Bool) (argv : List (List Char))
    (i : Nat) (acc : OptionArg T × Bool) (k : Nat) : OptionArg T × Bool :=
  let argIdx := k + 1
  let c := conv (argAt argv (i + argIdx))
  let acc := if c.2 then acc else (acc.1.RaiseError, true)
  (acc.1.SetArgument c.1 (argIdx - 1), acc.2)

/-- Body of the outer loop of Parser::AddOptionArg at index i (lines 212-242):
a token is an option statement if its first character is a dash; it matches
this option if its second character equals the flag. On a match the state is
set to true; if i + N >= nbArgs an error is raised and no conversion is
attempted, otherwise the N trailing tokens are converted and stored. -/
def oaStep (conv : List Char → T × Bool) (argv : List (List Char))
    (nbArgs N : Nat) (s : OptionArg T × Bool) (i : Nat) : OptionArg T × Bool :=
  if charAt (argAt argv i) 0 == '-' then
    if charAt (argAt argv i) 1 == s.1.toOption.flag then
      let s := (s.1.SetExists true, s.2)
      if nbArgs ≤ i + N then
        (s.1.RaiseError, true)
      else
        (List.range N).foldl (oaInnerStep conv argv i) s
    else s
  else s

/-- Parser::AddOptionArg<T,N> (lines 204-253). N is the template argument,
conv models the extraction into T, uninit models the construction-time
contents of the value array. As in AddOption, the stored entry is the final
snapshot of the (pointer-shared) option. -/
def Parser.AddOptionArg (p : Parser) (flag : Char) (description : String)
    (required : Bool) (N : Nat) (conv : List Char → T × Bool)
    (uninit : List T) : Parser × OptionArg T :=
  let o := (OptionArg.init flag description N uninit).SetRequired required
  let r := (List.range' 1 (p.nbArgs - 1)).foldl (oaStep conv p.argv p.nbArgs N)
      (o, p.error)
  let r := if !r.1.Exists && required then (r.1.RaiseError, true) else r
  ({ p with
      optionVector := p.optionVector ++ [StoredOpt.withArgs r.1.toOption r.1.nbArgs],
      error := r.2 }, r.1)

/-- Parser::IsCommandLineValid (lines 283-284). -/
def Parser.IsCommandLineValid (p : Parser) : Bool := !p.error

/-- Parser::SetDescription (lines 286-287). -/
def Parser.SetDescription (p : Parser) (desc : String) : Parser :=
  { p with description := desc }

/-- Virtual CLUsage of a stored option (Option::CLUsage lines 91-94,
OptionArg::CLUsage lines 134-140): the loop appends one placeholder per
nbArgs. -/
def StoredOpt.CLUsage : StoredOpt → String
  | .plain o => " [-" ++ String.mk [o.flag] ++ "]"
  | .withArgs o n =>
      (List.range n).foldl (fun acc _ => acc ++ " x")
        (" [-" ++ String.mk [o.flag]) ++ "]"

/-- Detail line printed for one stored option by Parser::Usage (lines
264-279), std::endl rendered as a newline. -/
def StoredOpt.detail (s : StoredOpt) : String :=
  let requirement := if s.base.IsRequired then "Required" else "Optional"
  (if s.base.ErrorFlag then "     *\t" else "\t") ++
    "-" ++ String.mk [s.base.flag] ++ " : " ++ s.base.GetDescription ++
    " (" ++ requirement ++ ")." ++ "\n"

/-- Parser::Usage (lines 255-281) as the full string written to std::cout. -/
def Parser.Usage (p : Parser) : String :=
  let s := "\n" ++ "Utility " ++ String.mk (argAt p.argv 0) ++ " :" ++ "\n"
  let s := s ++ "\n" ++ p.description ++ "\n"
  let s := s ++ "\n" ++ "Usage: \n [shell]$ " ++ String.mk (argAt p.argv 0)
  let s := p.optionVector.foldl (fun acc o => acc ++ o.CLUsage) s
  let s := s ++ "\n"
  let s := p.optionVector.foldl (fun acc o => acc ++ o.detail) s
  s ++ "* indicate(s) wrong argument(s)." ++ "\n"

/-- One declaration call on the Parser. For AddOptionArg only the success
function of the conversion influences the parser-side state, so a declaration
records that Boolean function; the bridge lemma AddOptionArg_fst_applyDecl
below proves the agreement with the typed operation. -/
inductive Decl where
  | opt (flag : Char) (description : String) (required : Bool)
  | optArg (flag : Char) (description : String) (required : Bool) (N : Nat)
      (ok : List Char → Bool)

/-- Parser effect of one declaration, defined through the embedded
operations themselves. -/
def applyDecl (p : Parser) : Decl → Parser
  | .opt f d r => (p.AddOption f d r).1
  | .optArg f d r N ok =>
      (p.AddOptionArg f d r N (fun t => ((), ok t)) (List.replicate N ())).1

/-- Modeled from the wording of property P1, for comparison with the code: a
token at index at least 1 whose first character is a dash contains the flag
character somewhere after its leading dash. -/
def specPresence (argv : List (List Char)) (c : Char) : Bool :=
  (argv.drop 1).any
    (fun t => charAt t 0 == '-' && (t.drop 1).any (fun ch => ch == c))

/-- Match test of Parser::AddOptionArg at index i (lines 214-216): first
character a dash and second character equal to the flag. -/
def oaMatch (argv : List (List Char)) (flag : Char) (i : Nat) : Bool :=
  charAt (argAt argv i) 0 == '-' && charAt (argAt argv i) 1 == flag

/-- Failure flag of the conversion of the k-th trailing token (argv[i+k+1])
of a match at index i. -/
def failAt (conv : List Char → T × Bool) (argv : List (List Char))
    (i k : Nat) : Bool :=
  !((conv (argAt argv (i + k + 1))).2)

/-- Value produced by the conversion of the k-th trailing token of a match at
index i (stored whether or not the extraction succeeded). -/
def convVal (conv : List Char → T × Bool) (argv : List (List Char))
    (i k : Nat) : T :=
  (conv (argAt argv (i + k + 1))).1

/-- Failure of at least one of the N conversions in the trailing window of a
match at index i. -/
def windowFail (conv : List Char → T × Bool) (argv : List (List Char))
    (N i : Nat) : Bool :=
  (List.range N).any (failAt conv argv i)

/-- Error condition of one matched occurrence at index i: not enough trailing
tokens, or otherwise some conversion in the window fails. -/
def oaErrCond (conv : List Char → T × Bool) (argv : List (List Char))
    (nbArgs N i : Nat) : Bool :=
  if nbArgs ≤ i + N then true else windowFail conv argv N i

/-- Concatenation of the strings produced from a list, in order. -/
def concatStr {α : Type} (f : α → String) : List α → String
  | [] => ""
  | x :: xs => f x ++ concatStr f xs

/-- One placeholder string per arity slot. -/
def placeholders : Nat → String
  | 0 => ""
  | n + 1 => placeholders n ++ " x"

/-- Modeled from the claim wording (amended): the command-template fragment of
a declared flag. -/
def specFragment : StoredOpt → String
  | .plain o => " [-" ++ String.mk [o.flag] ++ "]"
  | .withArgs o n => " [-" ++ String.mk [o.flag] ++ placeholders n ++ "]"

/-- Modeled from the claim wording (amended): the per-flag detail line, with
the error marker actually emitted by the code. -/
def specDetailLine (s : StoredOpt) : String :=
  (if s.base.error then "     *\t" else "\t") ++
    "-" ++ String.mk [s.base.flag] ++ " : " ++ s.base.description ++
    " (" ++ (if s.base.required then "Required" else "Optional") ++ ")." ++ "\n"

/-- Modeled from the claim wording (amended): usage text as a function of
exactly the program-name token, the registry description and the declared
flags in declaration order. -/
def usageSpecSide (prog : List Char) (desc : String)
    (opts : List StoredOpt) : String :=
  "\n" ++ "Utility " ++ String.mk prog ++ " :" ++ "\n" ++
    "\n" ++ desc ++ "\n" ++
    "\n" ++ "Usage: \n [shell]$ " ++ String.mk prog ++
    concatStr specFragment opts ++ "\n" ++
    concatStr specDetailLine opts ++
    "* indicate(s) wrong argument(s)." ++ "\n"

/-- Concrete sample conversion used by closed witness statements: value is the
token length, extraction succeeds on nonempty tokens. -/
def convLen : List Char → Nat × Bool :=
  fun t => (t.length, !t.isEmpty)

/-- Character scan of one token: only the state changes, and it becomes true
exactly when some character of the token equals the flag. -/
theorem foldl_aoCharStep_spec : ∀ (t : List Char) (o : Option),
    t.foldl aoCharStep o =
      { o with state := o.state || t.any (fun ch => ch == o.flag) }
  | [], o => by simp
  | ch :: t, o => by
      by_cases h : (ch == o.flag) = true
      · simp only [List.foldl_cons, aoCharStep, h, if_true, List.any_cons]
        rw [foldl_aoCharStep_spec t]
        simp [Option.SetExists, h]
      · simp only [List.foldl_cons, aoCharStep, h, List.any_cons]
        rw [foldl_aoCharStep_spec t]
        simp [h, Bool.false_or]

/-- One step of the AddOption outer loop: the state is or-ed with the match
result of token i, nothing else changes. -/
theorem aoStep_spec (argv : List (List Char)) (o : Option) (i : Nat) :
    aoStep argv o i =
      { o with state := o.state ||
          (charAt (argAt argv i) 0 == '-' &&
            (argAt argv i).any (fun ch => ch == o.flag)) } := by
  unfold aoStep
  by_cases h : (charAt (argAt argv i) 0 == '-') = true
  · rw [if_pos h, foldl_aoCharStep_spec]
    simp [h]
  · rw [if_neg h]
    simp only [Bool.not_eq_true] at h
    simp [h]

/-- Whole AddOption scan over a list of indices. -/
theorem foldl_aoStep_spec (argv : List (List Char)) : ∀ (l : List Nat) (o : Option),
    l.foldl (aoStep argv) o =
      { o with state := o.state || l.any (fun i =>
          charAt (argAt argv i) 0 == '-' &&
            (argAt argv i).any (fun ch => ch == o.flag)) }
  | [], o => by simp
  | i :: l, o => by
      simp only [List.foldl_cons, List.any_cons]
      rw [aoStep_spec, foldl_aoStep_spec argv l]
      simp [Bool.or_assoc]

/-- Scanning indices s..s+n-1 of a list through getD is scanning the
corresponding suffix. -/
theorem any_range'_getD {α : Type} (d : α) (P : α → Bool) :
    ∀ (n s : Nat) (xs : List α), s + n = xs.length →
      ((List.range' s n).any fun i => P (xs.getD i d)) = (xs.drop s).any P
  | 0, s, xs, h => by
      simp [List.drop_eq_nil_of_le (by omega : xs.length ≤ s)]
  | n + 1, s, xs, h => by
      have hs : s < xs.length := by omega
      rw [List.range'_succ, List.any_cons, List.drop_eq_getElem_cons hs,
        List.any_cons, List.getD_eq_getElem xs d hs,
        any_range'_getD d P n (s + 1) xs (by omega)]

/-- C1 counterexample: the character loop of Parser::AddOption starts at
position 0, so the leading dash itself is compared with the identifier. For
the flag character '-' and the token list ["p", "-"], Exists() is true
although no option-statement token contains '-' anywhere after its leading
dash (specPresence, the claim's own predicate, is false), refuting the
claimed equivalence at this concrete input. -/
theorem C1_counterexample :
    (((Parser.init [['p'], ['-']] "").AddOption '-' "dash" false).2).Exists = true ∧
      specPresence [['p'], ['-']] '-' = false := by
  exact ⟨rfl, rfl⟩

/-- C1 (amended): for every argument list and plain flag with identifier c,
after the declaration Exists() is true iff some token at index >= 1 whose
first character is '-' contains the character c at any position of the token,
the leading dash included (the scan starts at position 0). -/
theorem C1_presence (p : Parser) (h : p.nbArgs = p.argv.length)
    (flag : Char) (d : String) (r : Bool) :
    ((p.AddOption flag d r).2).Exists =
      (p.argv.drop 1).any
        (fun t => charAt t 0 == '-' && t.any (fun ch => ch == flag)) := by
  have hgoal : ((p.AddOption flag d r).2).Exists =
      ((List.range' 1 (p.nbArgs - 1)).foldl (aoStep p.argv)
        ((Option.init flag d).SetRequired r)).state := by
    simp only [Parser.AddOption, Option.Exists]
    split <;> rfl
  rw [hgoal, foldl_aoStep_spec]
  show (false || _) = _
  rw [Bool.false_or]
  rcases Nat.eq_zero_or_pos p.nbArgs with h0 | hpos
  · have hnil : p.argv = [] := List.eq_nil_of_length_eq_zero (by omega)
    rw [hnil, h0]
    rfl
  · exact any_range'_getD []
      (fun t => charAt t 0 == '-' && t.any (fun ch => ch == flag))
      (p.nbArgs - 1) 1 p.argv (by omega)

/-- Witness for C1_presence at a concrete input. -/
theorem C1_presence_witness :
    (((Parser.init [['p'], ['-', 'a', 'v']] "").AddOption 'v' "d" false).2).Exists =
      ([['p'], ['-', 'a', 'v']].drop 1).any
        (fun t => charAt t 0 == '-' && t.any (fun ch => ch == 'v')) :=
  C1_presence (Parser.init [['p'], ['-', 'a', 'v']] "") rfl 'v' "d" false

/-- Sub-argument loop of AddOptionArg over a list of counters: the option
error is or-ed with the conversion failures, the parser error likewise, the
arity field is unchanged, and every visited slot is written with the value
produced by the conversion. -/
theorem foldl_oaInnerStep_spec (conv : List Char → T × Bool)
    (argv : List (List Char)) (i : Nat) :
    ∀ (l : List Nat) (o : OptionArg T) (pe : Bool),
      (l.foldl (oaInnerStep conv argv i) (o, pe)).1.toOption =
          { o.toOption with
              error := o.toOption.error || l.any (failAt conv argv i) } ∧
      (l.foldl (oaInnerStep conv argv i) (o, pe)).2 =
          (pe || l.any (failAt conv argv i)) ∧
      (l.foldl (oaInnerStep conv argv i) (o, pe)).1.nbArgs = o.nbArgs ∧
      (l.foldl (oaInnerStep conv argv i) (o, pe)).1.argVector =
          l.foldl (fun av k => av.set k (convVal conv argv i k)) o.argVector
  | [], o, pe => by simp
  | k :: l, o, pe => by
      obtain ⟨⟨f0, d0, s0, r0, e0⟩, nb0, av0⟩ := o
      by_cases hc : ((conv (argAt argv (i + (k + 1)))).2) = true
      · have hstep : oaInnerStep conv argv i (⟨⟨f0, d0, s0, r0, e0⟩, nb0, av0⟩, pe) k =
            (⟨⟨f0, d0, s0, r0, e0⟩, nb0, av0.set k (convVal conv argv i k)⟩, pe) := by
          simp [oaInnerStep, hc, OptionArg.SetArgument, convVal, Nat.add_assoc]
        rw [List.foldl_cons, hstep]
        have ih := foldl_oaInnerStep_spec conv argv i l
          ⟨⟨f0, d0, s0, r0, e0⟩, nb0, av0.set k (convVal conv argv i k)⟩ pe
        simpa [failAt, hc, Nat.add_assoc] using ih
      · have hstep : oaInnerStep conv argv i (⟨⟨f0, d0, s0, r0, e0⟩, nb0, av0⟩, pe) k =
            (⟨⟨f0, d0, s0, r0, true⟩, nb0, av0.set k (convVal conv argv i k)⟩, true) := by
          simp [oaInnerStep, hc, OptionArg.SetArgument, OptionArg.RaiseError,
            Option.RaiseError, convVal, Nat.add_assoc]
        rw [List.foldl_cons, hstep]
        have ih := foldl_oaInnerStep_spec conv argv i l
          ⟨⟨f0, d0, s0, r0, true⟩, nb0, av0.set k (convVal conv argv i k)⟩ true
        simpa [failAt, hc, Nat.add_assoc] using ih

/-- A non-matching index leaves the scan state untouched. -/
theorem oaStep_not_matched (conv : List Char → T × Bool)
    (argv : List (List Char)) (nbArgs N : Nat) (s : OptionArg T × Bool) (i : Nat)
    (h : oaMatch argv s.1.toOption.flag i = false) :
    oaStep conv argv nbArgs N s i = s := by
  by_cases h0 : (charAt (argAt argv i) 0 == '-') = true
  · have h1 : (charAt (argAt argv i) 1 == s.1.toOption.flag) = false := by
      unfold oaMatch at h
      rw [h0] at h
      simpa using h
    simp [oaStep, h0, h1]
  · simp [oaStep, h0]

/-- A matching index with fewer than N trailing tokens sets the state, raises
both errors and leaves the slots untouched. -/
theorem oaStep_matched_insufficient (conv : List Char → T × Bool)
    (argv : List (List Char)) (nbArgs N : Nat) (s : OptionArg T × Bool) (i : Nat)
    (hm : oaMatch argv s.1.toOption.flag i = true) (hins : nbArgs ≤ i + N) :
    oaStep conv argv nbArgs N s i = ((s.1.SetExists true).RaiseError, true) := by
  unfold oaMatch at hm
  rw [Bool.and_eq_true] at hm
  simp [oaStep, hm.1, hm.2, hins]

/-- A matching index with at least N trailing tokens sets the state and runs
the sub-argument loop. -/
theorem oaStep_matched_sufficient (conv : List Char → T × Bool)
    (argv : List (List Char)) (nbArgs N : Nat) (s : OptionArg T × Bool) (i : Nat)
    (hm : oaMatch argv s.1.toOption.flag i = true) (hsuf : ¬ nbArgs ≤ i + N) :
    oaStep conv argv nbArgs N s i =
      (List.range N).foldl (oaInnerStep conv argv i) (s.1.SetExists true, s.2) := by
  unfold oaMatch at hm
  rw [Bool.and_eq_true] at hm
  simp [oaStep, hm.1, hm.2, hsuf]

/-- Writing slots never changes the length of the slot list. -/
theorem foldl_set_length {α : Type} (f : Nat → α) :
    ∀ (l : List Nat) (av : List α),
      (l.foldl (fun a k => a.set k (f k)) av).length = av.length
  | [], _ => rfl
  | k :: l, av => by
      rw [List.foldl_cons, foldl_set_length f l, List.length_set]

/-- Whole AddOptionArg scan over a list of indices: the flag and arity are
preserved, the state is or-ed with the match results, the option error and
the parser error are or-ed with the error conditions of the matched
occurrences, and the slot-list length is preserved. -/
theorem foldl_oaStep_main (conv : List Char → T × Bool) (argv : List (List Char))
    (nbArgs N : Nat) :
    ∀ (l : List Nat) (s : OptionArg T × Bool),
      (l.foldl (oaStep conv argv nbArgs N) s).1.toOption.flag = s.1.toOption.flag ∧
      (l.foldl (oaStep conv argv nbArgs N) s).1.nbArgs = s.1.nbArgs ∧
      (l.foldl (oaStep conv argv nbArgs N) s).1.toOption.state =
        (s.1.toOption.state || l.any (oaMatch argv s.1.toOption.flag)) ∧
      (l.foldl (oaStep conv argv nbArgs N) s).1.toOption.error =
        (s.1.toOption.error || l.any (fun i =>
          oaMatch argv s.1.toOption.flag i && oaErrCond conv argv nbArgs N i)) ∧
      (l.foldl (oaStep conv argv nbArgs N) s).2 =
        (s.2 || l.any (fun i =>
          oaMatch argv s.1.toOption.flag i && oaErrCond conv argv nbArgs N i)) ∧
      (l.foldl (oaStep conv argv nbArgs N) s).1.argVector.length =
        s.1.argVector.length
  | [], s => by simp
  | i :: l, s => by
      obtain ⟨⟨⟨f0, d0, st0, r0, e0⟩, nb0, av0⟩, pe0⟩ := s
      by_cases hm : oaMatch argv f0 i = true
      · by_cases hins : nbArgs ≤ i + N
        · have hstep : oaStep conv argv nbArgs N
              (⟨⟨f0, d0, st0, r0, e0⟩, nb0, av0⟩, pe0) i =
              (⟨⟨f0, d0, true, r0, true⟩, nb0, av0⟩, true) := by
            rw [oaStep_matched_insufficient conv argv nbArgs N _ i hm hins]
            rfl
          rw [List.foldl_cons, hstep]
          obtain ⟨ihf, ihn, ihs, ihe, ihp, ihl⟩ := foldl_oaStep_main conv argv
            nbArgs N l (⟨⟨f0, d0, true, r0, true⟩, nb0, av0⟩, true)
          refine ⟨by simpa using ihf, by simpa using ihn, ?_, ?_, ?_,
            by simpa using ihl⟩
          · rw [ihs]; simp [hm]
          · rw [ihe]; simp [hm, oaErrCond, hins]
          · rw [ihp]; simp [hm, oaErrCond, hins]
        · have hstep : oaStep conv argv nbArgs N
              (⟨⟨f0, d0, st0, r0, e0⟩, nb0, av0⟩, pe0) i =
              (List.range N).foldl (oaInnerStep conv argv i)
                (⟨⟨f0, d0, true, r0, e0⟩, nb0, av0⟩, pe0) := by
            rw [oaStep_matched_sufficient conv argv nbArgs N _ i hm hins]
            rfl
          rw [List.foldl_cons, hstep]
          obtain ⟨hto, hpe, hnb, hav⟩ := foldl_oaInnerStep_spec conv argv i
            (List.range N) ⟨⟨f0, d0, true, r0, e0⟩, nb0, av0⟩ pe0
          obtain ⟨ihf, ihn, ihs, ihe, ihp, ihl⟩ := foldl_oaStep_main conv argv
            nbArgs N l ((List.range N).foldl (oaInnerStep conv argv i)
              (⟨⟨f0, d0, true, r0, e0⟩, nb0, av0⟩, pe0))
          rw [hto] at ihf ihs ihe ihp
          rw [hnb] at ihn
          rw [hpe] at ihp
          refine ⟨by simpa using ihf, by simpa using ihn, ?_, ?_, ?_, ?_⟩
          · rw [ihs]; simp [hm]
          · rw [ihe]
            simp only [hm, oaErrCond, hins, if_false, windowFail, true_and,
              Bool.true_and, List.any_cons]
            simp [Bool.or_assoc]
          · rw [ihp]
            simp only [hm, oaErrCond, hins, if_false, windowFail, true_and,
              Bool.true_and, List.any_cons]
            simp [Bool.or_assoc]
          · rw [ihl, hav]
            simpa using foldl_set_length (fun k => convVal conv argv i k)
              (List.range N) av0
      · rw [Bool.not_eq_true] at hm
        rw [List.foldl_cons, oaStep_not_matched conv argv nbArgs N _ i hm]
        obtain ⟨ihf, ihn, ihs, ihe, ihp, ihl⟩ := foldl_oaStep_main conv argv
          nbArgs N l (⟨⟨f0, d0, st0, r0, e0⟩, nb0, av0⟩, pe0)
        refine ⟨by simpa using ihf, by simpa using ihn, ?_, ?_, ?_,
          by simpa using ihl⟩
        · rw [ihs]; simp [hm]
        · rw [ihe]; simp [hm]
        · rw [ihp]; simp [hm]

/-- A scan over indices none of which matches leaves the state untouched. -/
theorem foldl_oaStep_no_match (conv : List Char → T × Bool)
    (argv : List (List Char)) (nbArgs N : Nat) :
    ∀ (l : List Nat) (s : OptionArg T × Bool),
      (∀ i ∈ l, oaMatch argv s.1.toOption.flag i = false) →
      l.foldl (oaStep conv argv nbArgs N) s = s
  | [], _, _ => rfl
  | i :: l, s, h => by
      rw [List.foldl_cons, oaStep_not_matched conv argv nbArgs N s i (h i (by simp))]
      exact foldl_oaStep_no_match conv argv nbArgs N l s
        (fun j hj => h j (by simp [hj]))

/-- Writing position s of a list keeps the first s entries and puts the new
value at position s. -/
theorem take_set_succ {α : Type} :
    ∀ (av : List α) (s : Nat) (x : α), s < av.length →
      (av.set s x).take (s + 1) = av.take s ++ [x]
  | a :: av, 0, x, _ => by simp
  | a :: av, s + 1, x, h => by
      simp only [List.set_cons_succ, List.take_succ_cons, List.cons_append,
        List.cons.injEq, true_and]
      exact take_set_succ av s x (by simpa using h)

/-- Folding slot writes at positions s..s+n-1 over a list of length s+n keeps
the prefix and maps the positions. -/
theorem foldl_set_eq_map {α : Type} (f : Nat → α) :
    ∀ (n s : Nat) (av : List α), av.length = s + n →
      (List.range' s n).foldl (fun a k => a.set k (f k)) av =
        av.take s ++ (List.range' s n).map f
  | 0, s, av, h => by
      simp [List.take_of_length_le (by omega : av.length ≤ s)]
  | n + 1, s, av, h => by
      rw [List.range'_succ]
      simp only [List.foldl_cons, List.map_cons]
      rw [foldl_set_eq_map f n (s + 1) (av.set s (f s))
        (by rw [List.length_set]; omega)]
      rw [take_set_succ av s (f s) (by omega)]
      simp

/-- Folding slot writes at positions 0..N-1 over a list of length N rewrites
every slot. -/
theorem foldl_set_eq_map0 {α : Type} (f : Nat → α) (N : Nat) (av : List α)
    (h : av.length = N) :
    (List.range N).foldl (fun a k => a.set k (f k)) av = (List.range N).map f := by
  rw [List.range_eq_range', foldl_set_eq_map f N 0 av (by omega)]
  simp

/-- Returned option of AddOptionArg: the state is the state after the scan
(the required check does not change it). -/
theorem AddOptionArg_snd_state (p : Parser) (f : Char) (d : String) (r : Bool)
    (N : Nat) (conv : List Char → T × Bool) (u : List T) :
    ((p.AddOptionArg f d r N conv u).2).toOption.state =
      ((List.range' 1 (p.nbArgs - 1)).foldl (oaStep conv p.argv p.nbArgs N)
        ((OptionArg.init f d N u).SetRequired r, p.error)).1.toOption.state := by
  simp only [Parser.AddOptionArg]
  split <;> rfl

/-- Returned option of AddOptionArg: the flag is the flag after the scan. -/
theorem AddOptionArg_snd_flag (p : Parser) (f : Char) (d : String) (r : Bool)
    (N : Nat) (conv : List Char → T × Bool) (u : List T) :
    ((p.AddOptionArg f d r N conv u).2).toOption.flag =
      ((List.range' 1 (p.nbArgs - 1)).foldl (oaStep conv p.argv p.nbArgs N)
        ((OptionArg.init f d N u).SetRequired r, p.error)).1.toOption.flag := by
  simp only [Parser.AddOptionArg]
  split <;> rfl

/-- Returned option of AddOptionArg: the slots are the slots after the scan
(the required check does not touch them). -/
theorem AddOptionArg_snd_argVector (p : Parser) (f : Char) (d : String)
    (r : Bool) (N : Nat) (conv : List Char → T × Bool) (u : List T) :
    ((p.AddOptionArg f d r N conv u).2).argVector =
      ((List.range' 1 (p.nbArgs - 1)).foldl (oaStep conv p.argv p.nbArgs N)
        ((OptionArg.init f d N u).SetRequired r, p.error)).1.argVector := by
  simp only [Parser.AddOptionArg]
  split <;> rfl

/-- Returned option of AddOptionArg: its error is the scan error or-ed with
the required-but-absent condition. -/
theorem AddOptionArg_snd_error (p : Parser) (f : Char) (d : String) (r : Bool)
    (N : Nat) (conv : List Char → T × Bool) (u : List T) :
    ((p.AddOptionArg f d r N conv u).2).toOption.error =
      (((List.range' 1 (p.nbArgs - 1)).foldl (oaStep conv p.argv p.nbArgs N)
          ((OptionArg.init f d N u).SetRequired r, p.error)).1.toOption.error ||
        (!((List.range' 1 (p.nbArgs - 1)).foldl (oaStep conv p.argv p.nbArgs N)
          ((OptionArg.init f d N u).SetRequired r, p.error)).1.toOption.state && r)) := by
  simp only [Parser.AddOptionArg]
  split
  · next hc =>
      simp only [OptionArg.Exists] at hc
      rw [hc]
      simp [OptionArg.RaiseError, Option.RaiseError]
  · next hc =>
      rw [Bool.not_eq_true] at hc
      simp only [OptionArg.Exists] at hc
      rw [hc]
      simp

/-- Parser error after AddOptionArg: the scanned parser error or-ed with the
required-but-absent condition. -/
theorem AddOptionArg_fst_error (p : Parser) (f : Char) (d : String) (r : Bool)
    (N : Nat) (conv : List Char → T × Bool) (u : List T) :
    ((p.AddOptionArg f d r N conv u).1).error =
      (((List.range' 1 (p.nbArgs - 1)).foldl (oaStep conv p.argv p.nbArgs N)
          ((OptionArg.init f d N u).SetRequired r, p.error)).2 ||
        (!((List.range' 1 (p.nbArgs - 1)).foldl (oaStep conv p.argv p.nbArgs N)
          ((OptionArg.init f d N u).SetRequired r, p.error)).1.toOption.state && r)) := by
  simp only [Parser.AddOptionArg]
  split
  · next hc =>
      simp only [OptionArg.Exists] at hc
      rw [hc]
      simp
  · next hc =>
      rw [Bool.not_eq_true] at hc
      simp only [OptionArg.Exists] at hc
      rw [hc]
      simp

/-- AddOptionArg appends exactly one entry, the snapshot of the returned
option, to the option vector. -/
theorem AddOptionArg_fst_optionVector (p : Parser) (f : Char) (d : String)
    (r : Bool) (N : Nat) (conv : List Char → T × Bool) (u : List T) :
    ((p.AddOptionArg f d r N conv u).1).optionVector =
      p.optionVector ++ [StoredOpt.withArgs
        ((p.AddOptionArg f d r N conv u).2).toOption
        ((p.AddOptionArg f d r N conv u).2).nbArgs] := rfl

/-- AddOptionArg leaves nbArgs, argv and description of the parser
unchanged. -/
theorem AddOptionArg_fst_frame (p : Parser) (f : Char) (d : String) (r : Bool)
    (N : Nat) (conv : List Char → T × Bool) (u : List T) :
    ((p.AddOptionArg f d r N conv u).1).nbArgs = p.nbArgs ∧
    ((p.AddOptionArg f d r N conv u).1).argv = p.argv ∧
    ((p.AddOptionArg f d r N conv u).1).description = p.description := by
  exact ⟨rfl, rfl, rfl⟩

/-- Returned option of AddOption: the state is the state after the scan. -/
theorem AddOption_snd_state (p : Parser) (f : Char) (d : String) (r : Bool) :
    ((p.AddOption f d r).2).state =
      ((List.range' 1 (p.nbArgs - 1)).foldl (aoStep p.argv)
        ((Option.init f d).SetRequired r)).state := by
  simp only [Parser.AddOption]
  split <;> rfl

/-- Returned option of AddOption: its error is exactly the required-but-absent
condition (the plain scan never raises an error). -/
theorem AddOption_snd_error (p : Parser) (f : Char) (d : String) (r : Bool) :
    ((p.AddOption f d r).2).error = (!((p.AddOption f d r).2).state && r) := by
  rw [AddOption_snd_state]
  simp only [Parser.AddOption]
  split
  · next hc =>
      simp only [Option.Exists] at hc
      rw [hc]
      simp [Option.RaiseError]
  · next hc =>
      rw [Bool.not_eq_true] at hc
      simp only [Option.Exists] at hc
      rw [hc]
      rw [foldl_aoStep_spec]
      rfl

/-- Parser error after AddOption: the previous error or-ed with the
required-but-absent condition. -/
theorem AddOption_fst_error (p : Parser) (f : Char) (d : String) (r : Bool) :
    ((p.AddOption f d r).1).error =
      (p.error || (!((p.AddOption f d r).2).state && r)) := by
  rw [AddOption_snd_state]
  simp only [Parser.AddOption]
  split
  · next hc =>
      simp only [Option.Exists] at hc
      rw [hc]
      simp
  · next hc =>
      rw [Bool.not_eq_true] at hc
      simp only [Option.Exists] at hc
      rw [hc]
      simp

/-- AddOption appends exactly one entry, the snapshot of the returned option,
to the option vector. -/
theorem AddOption_fst_optionVector (p : Parser) (f : Char) (d : String)
    (r : Bool) :
    ((p.AddOption f d r).1).optionVector =
      p.optionVector ++ [StoredOpt.plain ((p.AddOption f d r).2)] := rfl

/-- AddOption leaves nbArgs, argv and description of the parser unchanged. -/
theorem AddOption_fst_frame (p : Parser) (f : Char) (d : String) (r : Bool) :
    ((p.AddOption f d r).1).nbArgs = p.nbArgs ∧
    ((p.AddOption f d r).1).argv = p.argv ∧
    ((p.AddOption f d r).1).description = p.description := by
  exact ⟨rfl, rfl, rfl⟩

/-- C2 counterexample: the token "-vV" is a concatenated multi-flag token
(three characters, carrying both 'v' and 'V' after the dash), yet it does
satisfy the value-flag with identifier 'v' because its second character is
'v': Exists() becomes true. This refutes the claim's clause that a
concatenated multi-flag token never satisfies a value-flag. -/
theorem C2_counterexample :
    ((((Parser.init [['p'], ['-', 'v', 'V'], ['a']] "").AddOptionArg 'v' "d"
        false 1 convLen [0]).2).Exists = true) ∧
      argAt [['p'], ['-', 'v', 'V'], ['a']] 1 = ['-', 'v', 'V'] := by
  exact ⟨rfl, rfl⟩

/-- C2 (amended): for every argument list and value flag with identifier c, a
token makes Exists() true iff its first character is '-' and its second
character equals c - whether or not further characters follow, so a
concatenated token satisfies the value-flag exactly when the identifier is
the character immediately after the dash. -/
theorem C2_value_flag_match (p : Parser) (h : p.nbArgs = p.argv.length)
    (f : Char) (d : String) (r : Bool) (N : Nat) (conv : List Char → T × Bool)
    (u : List T) :
    ((p.AddOptionArg f d r N conv u).2).Exists =
      (p.argv.drop 1).any (fun t => charAt t 0 == '-' && charAt t 1 == f) := by
  show ((p.AddOptionArg f d r N conv u).2).toOption.state = _
  rw [AddOptionArg_snd_state]
  obtain ⟨-, -, hst, -, -, -⟩ := foldl_oaStep_main conv p.argv p.nbArgs N
    (List.range' 1 (p.nbArgs - 1)) ((OptionArg.init f d N u).SetRequired r, p.error)
  rw [hst]
  have h1 : ((OptionArg.init f d N u).SetRequired r, p.error).1.toOption.state
      = false := rfl
  have h2 : ((OptionArg.init f d N u).SetRequired r, p.error).1.toOption.flag
      = f := rfl
  rw [h1, h2, Bool.false_or]
  rcases Nat.eq_zero_or_pos p.nbArgs with h0 | hpos
  · have hnil : p.argv = [] := List.eq_nil_of_length_eq_zero (by omega)
    rw [hnil, h0]
    rfl
  · exact any_range'_getD [] (fun t => charAt t 0 == '-' && charAt t 1 == f)
      (p.nbArgs - 1) 1 p.argv (by omega)

/-- Witness for C2_value_flag_match at a concrete input. -/
theorem C2_value_flag_match_witness :
    ((((Parser.init [['p'], ['-', 'v', 'V'], ['a']] "").AddOptionArg 'v' "d"
        false 1 convLen [0]).2).Exists) =
      ([['p'], ['-', 'v', 'V'], ['a']].drop 1).any
        (fun t => charAt t 0 == '-' && charAt t 1 == 'v') :=
  C2_value_flag_match (Parser.init [['p'], ['-', 'v', 'V'], ['a']] "") rfl 'v'
    "d" false 1 convLen [0]

/-- C3: a matched value-flag occurrence at index i with fewer than N trailing
tokens (i + N >= token count) makes hasError() true, raises the aggregate
error (isValid() false), and that occurrence performs no conversion and no
slot write: the step of the scan at index i leaves the slots exactly as they
were before it. -/
theorem C3_arity_contract (p : Parser) (f : Char) (d : String) (r : Bool)
    (N : Nat) (conv : List Char → T × Bool) (u : List T) (i : Nat)
    (hi1 : 1 ≤ i) (hi2 : i < p.nbArgs)
    (hm : oaMatch p.argv f i = true) (hins : p.nbArgs ≤ i + N) :
    ((p.AddOptionArg f d r N conv u).2).ErrorFlag = true ∧
    ((p.AddOptionArg f d r N conv u).1).error = true ∧
    ((p.AddOptionArg f d r N conv u).1).IsCommandLineValid = false ∧
    (oaStep conv p.argv p.nbArgs N
        ((List.range' 1 (i - 1)).foldl (oaStep conv p.argv p.nbArgs N)
          ((OptionArg.init f d N u).SetRequired r, p.error)) i).1.argVector =
      ((List.range' 1 (i - 1)).foldl (oaStep conv p.argv p.nbArgs N)
          ((OptionArg.init f d N u).SetRequired r, p.error)).1.argVector := by
  obtain ⟨hfl, -, -, he, hp, -⟩ := foldl_oaStep_main conv p.argv p.nbArgs N
    (List.range' 1 (p.nbArgs - 1)) ((OptionArg.init f d N u).SetRequired r, p.error)
  have h2 : ((OptionArg.init f d N u).SetRequired r, p.error).1.toOption.flag
      = f := rfl
  rw [h2] at he hp
  have hmem : i ∈ List.range' 1 (p.nbArgs - 1) :=
    List.mem_range'_1.mpr ⟨hi1, by omega⟩
  have hany : (List.range' 1 (p.nbArgs - 1)).any (fun j =>
      oaMatch p.argv f j && oaErrCond conv p.argv p.nbArgs N j) = true :=
    List.any_eq_true.mpr ⟨i, hmem, by simp [hm, oaErrCond, hins]⟩
  have hse : ((List.range' 1 (p.nbArgs - 1)).foldl (oaStep conv p.argv p.nbArgs N)
      ((OptionArg.init f d N u).SetRequired r, p.error)).1.toOption.error = true := by
    rw [he]
    simp [hany]
  have hsp : ((List.range' 1 (p.nbArgs - 1)).foldl (oaStep conv p.argv p.nbArgs N)
      ((OptionArg.init f d N u).SetRequired r, p.error)).2 = true := by
    rw [hp]
    simp [hany]
  refine ⟨?_, ?_, ?_, ?_⟩
  · simp only [OptionArg.ErrorFlag]
    rw [AddOptionArg_snd_error, hse]
    simp
  · rw [AddOptionArg_fst_error, hsp]
    simp
  · simp only [Parser.IsCommandLineValid]
    rw [AddOptionArg_fst_error, hsp]
    simp
  · obtain ⟨hfl2, -, -, -, -, -⟩ := foldl_oaStep_main conv p.argv p.nbArgs N
      (List.range' 1 (i - 1)) ((OptionArg.init f d N u).SetRequired r, p.error)
    rw [h2] at hfl2
    rw [oaStep_matched_insufficient conv p.argv p.nbArgs N _ i
      (by rw [hfl2]; exact hm) hins]
    rfl

/-- Witness for C3_arity_contract at a concrete input: token "-s" at index 1
with only two trailing tokens for arity 3. -/
theorem C3_arity_contract_witness :
    (((Parser.init [['p'], ['-', 's'], ['1'], ['2']] "").AddOptionArg 's' "d"
        false 3 convLen [0, 0, 0]).2).ErrorFlag = true ∧
    (((Parser.init [['p'], ['-', 's'], ['1'], ['2']] "").AddOptionArg 's' "d"
        false 3 convLen [0, 0, 0]).1).error = true ∧
    (((Parser.init [['p'], ['-', 's'], ['1'], ['2']] "").AddOptionArg 's' "d"
        false 3 convLen [0, 0, 0]).1).IsCommandLineValid = false ∧
    (oaStep convLen [['p'], ['-', 's'], ['1'], ['2']] 4 3
        ((List.range' 1 0).foldl (oaStep convLen [['p'], ['-', 's'], ['1'], ['2']] 4 3)
          ((OptionArg.init 's' "d" 3 [0, 0, 0]).SetRequired false, false)) 1).1.argVector =
      ((List.range' 1 0).foldl (oaStep convLen [['p'], ['-', 's'], ['1'], ['2']] 4 3)
          ((OptionArg.init 's' "d" 3 [0, 0, 0]).SetRequired false, false)).1.argVector :=
  C3_arity_contract (Parser.init [['p'], ['-', 's'], ['1'], ['2']] "") 's' "d"
    false 3 convLen [0, 0, 0] 1 (by decide) (by decide) (by decide) (by decide)

/-- C4: a required flag (plain or value) that is not present after its
declaration scan has hasError() true and makes the Registry invalid; and for
a plain flag this is the only error source: hasError() equals required and
not present. -/
theorem C4_required_absent :
    (∀ (p : Parser) (f : Char) (d : String),
      ((p.AddOption f d true).2).Exists = false →
        ((p.AddOption f d true).2).ErrorFlag = true ∧
        ((p.AddOption f d true).1).IsCommandLineValid = false) ∧
    (∀ (U : Type) (p : Parser) (f : Char) (d : String) (N : Nat)
        (conv : List Char → U × Bool) (u : List U),
      ((p.AddOptionArg f d true N conv u).2).Exists = false →
        ((p.AddOptionArg f d true N conv u).2).ErrorFlag = true ∧
        ((p.AddOptionArg f d true N conv u).1).IsCommandLineValid = false) ∧
    (∀ (p : Parser) (f : Char) (d : String) (r : Bool),
      ((p.AddOption f d r).2).ErrorFlag =
        (r && !((p.AddOption f d r).2).Exists)) := by
  refine ⟨?_, ?_, ?_⟩
  · intro p f d h
    simp only [Option.Exists] at h
    constructor
    · simp only [Option.ErrorFlag]
      rw [AddOption_snd_error, h]
      rfl
    · simp only [Parser.IsCommandLineValid]
      rw [AddOption_fst_error, h]
      simp
  · intro U p f d N conv u h
    simp only [OptionArg.Exists] at h
    rw [AddOptionArg_snd_state] at h
    constructor
    · simp only [OptionArg.ErrorFlag]
      rw [AddOptionArg_snd_error, h]
      simp
    · simp only [Parser.IsCommandLineValid]
      rw [AddOptionArg_fst_error, h]
      simp
  · intro p f d r
    simp only [Option.ErrorFlag, Option.Exists]
    rw [AddOption_snd_error]
    rw [Bool.and_comm]

/-- Witness for C4_required_absent at a concrete input: required flag 'h'
absent from the token list. -/
theorem C4_required_absent_witness :
    (((Parser.init [['p'], ['-', 'x']] "").AddOption 'h' "d" true).2).ErrorFlag
        = true ∧
    Parser.IsCommandLineValid
        (((Parser.init [['p'], ['-', 'x']] "").AddOption 'h' "d" true).1) = false :=
  C4_required_absent.1 (Parser.init [['p'], ['-', 'x']] "") 'h' "d" rfl

/-- C6: for a matched value-flag occurrence with enough trailing tokens, a
conversion failure on any one of the N trailing tokens makes hasError() true
and raises the aggregate error, while the occurrence still processes every
slot: the scan step at index i rewrites all N slots with the values produced
by the conversions, so tokens that converted successfully keep their
converted values in the corresponding zero-based slots (no rollback). -/
theorem C6_conversion_failure (p : Parser) (f : Char) (d : String) (r : Bool)
    (N : Nat) (conv : List Char → T × Bool) (u : List T) (i : Nat)
    (hi1 : 1 ≤ i) (hi2 : i < p.nbArgs)
    (hm : oaMatch p.argv f i = true) (hsuf : i + N < p.nbArgs)
    (hlen : u.length = N)
    (hfail : ∃ k, k < N ∧ (conv (argAt p.argv (i + k + 1))).2 = false) :
    ((p.AddOptionArg f d r N conv u).2).ErrorFlag = true ∧
    ((p.AddOptionArg f d r N conv u).1).error = true ∧
    ((p.AddOptionArg f d r N conv u).1).IsCommandLineValid = false ∧
    (oaStep conv p.argv p.nbArgs N
        ((List.range' 1 (i - 1)).foldl (oaStep conv p.argv p.nbArgs N)
          ((OptionArg.init f d N u).SetRequired r, p.error)) i).1.argVector =
      (List.range N).map (convVal conv p.argv i) := by
  obtain ⟨k, hk1, hk2⟩ := hfail
  have hw : windowFail conv p.argv N i = true :=
    List.any_eq_true.mpr ⟨k, List.mem_range.mpr hk1, by simp [failAt, hk2]⟩
  have hcond : oaErrCond conv p.argv p.nbArgs N i = true := by
    rw [oaErrCond, if_neg (Nat.not_le.mpr hsuf)]
    exact hw
  obtain ⟨hfl, -, -, he, hp, -⟩ := foldl_oaStep_main conv p.argv p.nbArgs N
    (List.range' 1 (p.nbArgs - 1)) ((OptionArg.init f d N u).SetRequired r, p.error)
  have h2 : ((OptionArg.init f d N u).SetRequired r, p.error).1.toOption.flag
      = f := rfl
  rw [h2] at he hp
  have hmem : i ∈ List.range' 1 (p.nbArgs - 1) :=
    List.mem_range'_1.mpr ⟨hi1, by omega⟩
  have hany : (List.range' 1 (p.nbArgs - 1)).any (fun j =>
      oaMatch p.argv f j && oaErrCond conv p.argv p.nbArgs N j) = true :=
    List.any_eq_true.mpr ⟨i, hmem, by simp [hm, hcond]⟩
  have hse : ((List.range' 1 (p.nbArgs - 1)).foldl (oaStep conv p.argv p.nbArgs N)
      ((OptionArg.init f d N u).SetRequired r, p.error)).1.toOption.error = true := by
    rw [he]
    simp [hany]
  have hsp : ((List.range' 1 (p.nbArgs - 1)).foldl (oaStep conv p.argv p.nbArgs N)
      ((OptionArg.init f d N u).SetRequired r, p.error)).2 = true := by
    rw [hp]
    simp [hany]
  refine ⟨?_, ?_, ?_, ?_⟩
  · simp only [OptionArg.ErrorFlag]
    rw [AddOptionArg_snd_error, hse]
    simp
  · rw [AddOptionArg_fst_error, hsp]
    simp
  · simp only [Parser.IsCommandLineValid]
    rw [AddOptionArg_fst_error, hsp]
    simp
  · obtain ⟨hfl2, -, -, -, -, hlen2⟩ := foldl_oaStep_main conv p.argv p.nbArgs N
      (List.range' 1 (i - 1)) ((OptionArg.init f d N u).SetRequired r, p.error)
    rw [h2] at hfl2
    have hlenPre : ((List.range' 1 (i - 1)).foldl (oaStep conv p.argv p.nbArgs N)
        ((OptionArg.init f d N u).SetRequired r, p.error)).1.argVector.length = N := by
      rw [hlen2]
      exact hlen
    rw [oaStep_matched_sufficient conv p.argv p.nbArgs N _ i
      (by rw [hfl2]; exact hm) (Nat.not_le.mpr hsuf)]
    obtain ⟨-, -, -, hav⟩ := foldl_oaInnerStep_spec conv p.argv i (List.range N)
      (((List.range' 1 (i - 1)).foldl (oaStep conv p.argv p.nbArgs N)
        ((OptionArg.init f d N u).SetRequired r, p.error)).1.SetExists true)
      ((List.range' 1 (i - 1)).foldl (oaStep conv p.argv p.nbArgs N)
        ((OptionArg.init f d N u).SetRequired r, p.error)).2
    rw [hav]
    exact foldl_set_eq_map0 (fun k => convVal conv p.argv i k) N _ hlenPre

/-- Witness for C6_conversion_failure at a concrete input: the empty second
trailing-window token makes convLen fail on slot 0 while slot 1 still
receives its converted value. -/
theorem C6_conversion_failure_witness :
    (((Parser.init [['p'], ['-', 'e'], [], ['b', 'b']] "").AddOptionArg 'e' "d"
        false 2 convLen [9, 9]).2).ErrorFlag = true ∧
    (((Parser.init [['p'], ['-', 'e'], [], ['b', 'b']] "").AddOptionArg 'e' "d"
        false 2 convLen [9, 9]).1).error = true ∧
    (((Parser.init [['p'], ['-', 'e'], [], ['b', 'b']] "").AddOptionArg 'e' "d"
        false 2 convLen [9, 9]).1).IsCommandLineValid = false ∧
    (oaStep convLen [['p'], ['-', 'e'], [], ['b', 'b']] 4 2
        ((List.range' 1 0).foldl (oaStep convLen [['p'], ['-', 'e'], [], ['b', 'b']] 4 2)
          ((OptionArg.init 'e' "d" 2 [9, 9]).SetRequired false, false)) 1).1.argVector =
      (List.range 2).map (convVal convLen [['p'], ['-', 'e'], [], ['b', 'b']] 1) :=
  C6_conversion_failure (Parser.init [['p'], ['-', 'e'], [], ['b', 'b']] "") 'e'
    "d" false 2 convLen [9, 9] 1 (by decide) (by decide) (by decide) (by decide)
    (by decide) ⟨0, by decide, rfl⟩

/-- C10: the single declaration scan processes every matching occurrence in
token order, and (1) the per-option error and the parser error are set-only
through any sequence of scan steps; (2) when the last matching occurrence at
index j has enough trailing tokens, the slots finally returned by
AddOptionArg are exactly the values converted from j's trailing window, so a
later occurrence overwrites the slots written by earlier ones; (3) an error
condition at any matching occurrence makes the final hasError() and the
aggregate error true - no later successful occurrence and no required check
ever clears them. -/
theorem C10_multiple_occurrences :
    (∀ (U : Type) (conv : List Char → U × Bool) (argv : List (List Char))
        (nbArgs N : Nat) (l : List Nat) (s : OptionArg U × Bool),
      (s.1.toOption.error = true →
        (l.foldl (oaStep conv argv nbArgs N) s).1.toOption.error = true) ∧
      (s.2 = true → (l.foldl (oaStep conv argv nbArgs N) s).2 = true)) ∧
    (∀ (U : Type) (p : Parser) (f : Char) (d : String) (r : Bool) (N : Nat)
        (conv : List Char → U × Bool) (u : List U) (j : Nat),
      1 ≤ j → j < p.nbArgs → oaMatch p.argv f j = true → j + N < p.nbArgs →
      u.length = N →
      (∀ k, j < k → k < p.nbArgs → oaMatch p.argv f k = false) →
      ((p.AddOptionArg f d r N conv u).2).argVector =
        (List.range N).map (convVal conv p.argv j)) ∧
    (∀ (U : Type) (p : Parser) (f : Char) (d : String) (r : Bool) (N : Nat)
        (conv : List Char → U × Bool) (u : List U) (i : Nat),
      1 ≤ i → i < p.nbArgs → oaMatch p.argv f i = true →
      oaErrCond conv p.argv p.nbArgs N i = true →
      ((p.AddOptionArg f d r N conv u).2).ErrorFlag = true ∧
      ((p.AddOptionArg f d r N conv u).1).error = true) := by
  refine ⟨?_, ?_, ?_⟩
  · intro U conv argv nbArgs N l s
    obtain ⟨-, -, -, he, hp, -⟩ := foldl_oaStep_main conv argv nbArgs N l s
    constructor
    · intro hs
      rw [he, hs]
      simp
    · intro hs
      rw [hp, hs]
      simp
  · intro U p f d r N conv u j hj1 hj2 hm hsuf hlen hnomatch
    have hsplit : List.range' 1 (p.nbArgs - 1) =
        List.range' 1 (j - 1) ++ (j :: List.range' (j + 1) (p.nbArgs - (j + 1))) := by
      have h1 : List.range' 1 (j - 1) ++ List.range' (1 + (j - 1)) (p.nbArgs - j) =
          List.range' 1 ((p.nbArgs - j) + (j - 1)) :=
        List.range'_append_1 1 (j - 1) (p.nbArgs - j)
      rw [(by omega : 1 + (j - 1) = j),
        (by omega : (p.nbArgs - j) + (j - 1) = p.nbArgs - 1)] at h1
      rw [← h1]
      congr 1
      rw [(by omega : p.nbArgs - j = (p.nbArgs - (j + 1)) + 1), List.range'_succ]
    obtain ⟨hfl2, -, -, -, -, hlen2⟩ := foldl_oaStep_main conv p.argv p.nbArgs N
      (List.range' 1 (j - 1)) ((OptionArg.init f d N u).SetRequired r, p.error)
    have h2 : ((OptionArg.init f d N u).SetRequired r, p.error).1.toOption.flag
        = f := rfl
    rw [h2] at hfl2
    have hlenPre : ((List.range' 1 (j - 1)).foldl (oaStep conv p.argv p.nbArgs N)
        ((OptionArg.init f d N u).SetRequired r, p.error)).1.argVector.length = N := by
      rw [hlen2]
      exact hlen
    have hstep := oaStep_matched_sufficient conv p.argv p.nbArgs N
      ((List.range' 1 (j - 1)).foldl (oaStep conv p.argv p.nbArgs N)
        ((OptionArg.init f d N u).SetRequired r, p.error)) j
      (by rw [hfl2]; exact hm) (Nat.not_le.mpr hsuf)
    obtain ⟨hto, -, -, hav⟩ := foldl_oaInnerStep_spec conv p.argv j (List.range N)
      (((List.range' 1 (j - 1)).foldl (oaStep conv p.argv p.nbArgs N)
        ((OptionArg.init f d N u).SetRequired r, p.error)).1.SetExists true)
      ((List.range' 1 (j - 1)).foldl (oaStep conv p.argv p.nbArgs N)
        ((OptionArg.init f d N u).SetRequired r, p.error)).2
    have hjv : (oaStep conv p.argv p.nbArgs N
        ((List.range' 1 (j - 1)).foldl (oaStep conv p.argv p.nbArgs N)
          ((OptionArg.init f d N u).SetRequired r, p.error)) j).1.argVector =
        (List.range N).map (convVal conv p.argv j) := by
      rw [hstep, hav]
      exact foldl_set_eq_map0 (fun k => convVal conv p.argv j k) N _ hlenPre
    have hjf : (oaStep conv p.argv p.nbArgs N
        ((List.range' 1 (j - 1)).foldl (oaStep conv p.argv p.nbArgs N)
          ((OptionArg.init f d N u).SetRequired r, p.error)) j).1.toOption.flag = f := by
      rw [hstep, hto]
      exact hfl2
    have hb : (List.range' (j + 1) (p.nbArgs - (j + 1))).foldl
        (oaStep conv p.argv p.nbArgs N)
        (oaStep conv p.argv p.nbArgs N
          ((List.range' 1 (j - 1)).foldl (oaStep conv p.argv p.nbArgs N)
            ((OptionArg.init f d N u).SetRequired r, p.error)) j) =
        oaStep conv p.argv p.nbArgs N
          ((List.range' 1 (j - 1)).foldl (oaStep conv p.argv p.nbArgs N)
            ((OptionArg.init f d N u).SetRequired r, p.error)) j := by
      apply foldl_oaStep_no_match
      intro k hk
      rw [hjf]
      have hk2 := List.mem_range'_1.mp hk
      exact hnomatch k (by omega) (by omega)
    rw [AddOptionArg_snd_argVector, hsplit, List.foldl_append, List.foldl_cons,
      hb, hjv]
  · intro U p f d r N conv u i hi1 hi2 hm hcond
    obtain ⟨hfl, -, -, he, hp, -⟩ := foldl_oaStep_main conv p.argv p.nbArgs N
      (List.range' 1 (p.nbArgs - 1)) ((OptionArg.init f d N u).SetRequired r, p.error)
    have h2 : ((OptionArg.init f d N u).SetRequired r, p.error).1.toOption.flag
        = f := rfl
    rw [h2] at he hp
    have hmem : i ∈ List.range' 1 (p.nbArgs - 1) :=
      List.mem_range'_1.mpr ⟨hi1, by omega⟩
    have hany : (List.range' 1 (p.nbArgs - 1)).any (fun j =>
        oaMatch p.argv f j && oaErrCond conv p.argv p.nbArgs N j) = true :=
      List.any_eq_true.mpr ⟨i, hmem, by simp [hm, hcond]⟩
    have hse : ((List.range' 1 (p.nbArgs - 1)).foldl (oaStep conv p.argv p.nbArgs N)
        ((OptionArg.init f d N u).SetRequired r, p.error)).1.toOption.error = true := by
      rw [he]
      simp [hany]
    have hsp : ((List.range' 1 (p.nbArgs - 1)).foldl (oaStep conv p.argv p.nbArgs N)
        ((OptionArg.init f d N u).SetRequired r, p.error)).2 = true := by
      rw [hp]
      simp [hany]
    constructor
    · simp only [OptionArg.ErrorFlag]
      rw [AddOptionArg_snd_error, hse]
      simp
    · rw [AddOptionArg_fst_error, hsp]
      simp

/-- Witness for C10_multiple_occurrences at a concrete input: the flag 'e'
occurs at indices 1 and 3; the final slot holds the value converted from the
last occurrence's trailing token. -/
theorem C10_multiple_occurrences_witness :
    ((Parser.AddOptionArg
        (Parser.init [['p'], ['-', 'e'], ['a'], ['-', 'e'], ['c', 'c']] "")
        'e' "d" false 1 convLen [9]).2).argVector =
      (List.range 1).map
        (convVal convLen [['p'], ['-', 'e'], ['a'], ['-', 'e'], ['c', 'c']] 3) :=
  C10_multiple_occurrences.2.1 Nat
    (Parser.init [['p'], ['-', 'e'], ['a'], ['-', 'e'], ['c', 'c']] "") 'e' "d"
    false 1 convLen [9] 3 (by decide) (by decide) (by decide) (by decide)
    (by decide)
    (fun k hk1 hk2 => by
      have h5 : k < 5 := hk2
      have h4 : k = 4 := by omega
      subst h4
      decide)

/-- Two AddOptionArg scans whose conversions have the same success function
and whose states agree on everything but the typed slots stay in agreement on
the base option, the arity and the parser error. -/
theorem foldl_oaStep_bridge (conv : List Char → T × Bool)
    (argv : List (List Char)) (nbArgs N : Nat) :
    ∀ (l : List Nat) (a : OptionArg T × Bool) (b : OptionArg Unit × Bool),
      a.1.toOption = b.1.toOption → a.1.nbArgs = b.1.nbArgs → a.2 = b.2 →
      (l.foldl (oaStep conv argv nbArgs N) a).1.toOption =
        (l.foldl (oaStep (fun t => ((), (conv t).2)) argv nbArgs N) b).1.toOption ∧
      (l.foldl (oaStep conv argv nbArgs N) a).1.nbArgs =
        (l.foldl (oaStep (fun t => ((), (conv t).2)) argv nbArgs N) b).1.nbArgs ∧
      (l.foldl (oaStep conv argv nbArgs N) a).2 =
        (l.foldl (oaStep (fun t => ((), (conv t).2)) argv nbArgs N) b).2
  | [], a, b, h1, h2, h3 => ⟨h1, h2, h3⟩
  | i :: l, a, b, h1, h2, h3 => by
      obtain ⟨⟨oa, na, va⟩, pa⟩ := a
      obtain ⟨⟨ob, nb, vb⟩, pb⟩ := b
      simp only at h1 h2 h3
      subst h1
      subst h2
      subst h3
      simp only [List.foldl_cons]
      by_cases hm : oaMatch argv oa.flag i = true
      · by_cases hins : nbArgs ≤ i + N
        · rw [oaStep_matched_insufficient conv argv nbArgs N _ i hm hins,
            oaStep_matched_insufficient (fun t => ((), (conv t).2)) argv nbArgs N
              _ i hm hins]
          exact foldl_oaStep_bridge conv argv nbArgs N l _ _ rfl rfl rfl
        · rw [oaStep_matched_sufficient conv argv nbArgs N _ i hm hins,
            oaStep_matched_sufficient (fun t => ((), (conv t).2)) argv nbArgs N
              _ i hm hins]
          obtain ⟨htoA, hpeA, hnbA, -⟩ := foldl_oaInnerStep_spec conv argv i
            (List.range N) ((⟨oa, na, va⟩ : OptionArg T).SetExists true) pa
          obtain ⟨htoB, hpeB, hnbB, -⟩ := foldl_oaInnerStep_spec
            (fun t => ((), (conv t).2)) argv i
            (List.range N) ((⟨oa, na, vb⟩ : OptionArg Unit).SetExists true) pa
          apply foldl_oaStep_bridge conv argv nbArgs N l
          · rw [htoA, htoB]
            rfl
          · rw [hnbA, hnbB]
            rfl
          · rw [hpeA, hpeB]
            rfl
      · rw [Bool.not_eq_true] at hm
        rw [oaStep_not_matched conv argv nbArgs N _ i hm,
          oaStep_not_matched (fun t => ((), (conv t).2)) argv nbArgs N _ i hm]
        exact foldl_oaStep_bridge conv argv nbArgs N l _ _ rfl rfl rfl

/-- Bridge: the parser returned by a typed AddOptionArg equals the parser
effect recorded by the corresponding declaration (only the success function
of the conversion matters to the parser state). -/
theorem AddOptionArg_fst_applyDecl (p : Parser) (f : Char) (d : String)
    (r : Bool) (N : Nat) (conv : List Char → T × Bool) (u : List T) :
    (p.AddOptionArg f d r N conv u).1 =
      applyDecl p (Decl.optArg f d r N (fun t => (conv t).2)) := by
  obtain ⟨hto, hnb, hpe⟩ := foldl_oaStep_bridge conv p.argv p.nbArgs N
    (List.range' 1 (p.nbArgs - 1))
    ((OptionArg.init f d N u).SetRequired r, p.error)
    ((OptionArg.init f d N (List.replicate N ())).SetRequired r, p.error)
    rfl rfl rfl
  have hE : ((List.range' 1 (p.nbArgs - 1)).foldl (oaStep conv p.argv p.nbArgs N)
        ((OptionArg.init f d N u).SetRequired r, p.error)).1.Exists =
      ((List.range' 1 (p.nbArgs - 1)).foldl
        (oaStep (fun t => ((), (conv t).2)) p.argv p.nbArgs N)
        ((OptionArg.init f d N (List.replicate N ())).SetRequired r, p.error)).1.Exists := by
    simp only [OptionArg.Exists]
    rw [hto]
  simp only [applyDecl, Parser.AddOptionArg]
  by_cases hc : ((!((List.range' 1 (p.nbArgs - 1)).foldl
      (oaStep conv p.argv p.nbArgs N)
      ((OptionArg.init f d N u).SetRequired r, p.error)).1.Exists) && r) = true
  · have hcB := hc
    rw [hE] at hcB
    rw [if_pos hc, if_pos hcB]
    simp only [OptionArg.RaiseError]
    rw [hto, hnb]
  · have hcB := hc
    rw [hE] at hcB
    rw [if_neg hc, if_neg hcB]
    rw [hto, hnb, hpe]

/-- AddOption preserves the aggregate-error invariant: the parser error flag
equals the disjunction of the stored flags' errors. -/
theorem AddOption_invariant (p : Parser) (f : Char) (d : String) (r : Bool)
    (h : p.error = p.optionVector.any (fun s => s.base.error)) :
    ((p.AddOption f d r).1).error =
      ((p.AddOption f d r).1).optionVector.any (fun s => s.base.error) := by
  rw [AddOption_fst_error, AddOption_fst_optionVector, h]
  simp [StoredOpt.base, AddOption_snd_error]

/-- AddOptionArg preserves the aggregate-error invariant. -/
theorem AddOptionArg_invariant (p : Parser) (f : Char) (d : String) (r : Bool)
    (N : Nat) (conv : List Char → T × Bool) (u : List T)
    (h : p.error = p.optionVector.any (fun s => s.base.error)) :
    ((p.AddOptionArg f d r N conv u).1).error =
      ((p.AddOptionArg f d r N conv u).1).optionVector.any
        (fun s => s.base.error) := by
  obtain ⟨-, -, -, he, hp, -⟩ := foldl_oaStep_main conv p.argv p.nbArgs N
    (List.range' 1 (p.nbArgs - 1)) ((OptionArg.init f d N u).SetRequired r, p.error)
  rw [AddOptionArg_fst_error, AddOptionArg_fst_optionVector, hp]
  simp only [List.any_append, List.any_cons, List.any_nil, StoredOpt.base]
  rw [AddOptionArg_snd_error, he]
  rw [h]
  have hie : ((OptionArg.init f d N u).SetRequired r).toOption.error = false := rfl
  simp [hie, StoredOpt.base, Bool.or_assoc]

/-- One declaration preserves the aggregate-error invariant. -/
theorem applyDecl_invariant (d : Decl) (p : Parser)
    (h : p.error = p.optionVector.any (fun s => s.base.error)) :
    (applyDecl p d).error =
      (applyDecl p d).optionVector.any (fun s => s.base.error) := by
  cases d with
  | opt f de r => exact AddOption_invariant p f de r h
  | optArg f de r N ok =>
      exact AddOptionArg_invariant p f de r N (fun t => ((), ok t))
        (List.replicate N ()) h

/-- Any sequence of declarations preserves the aggregate-error invariant. -/
theorem foldl_applyDecl_invariant :
    ∀ (ds : List Decl) (p : Parser),
      p.error = p.optionVector.any (fun s => s.base.error) →
      (ds.foldl applyDecl p).error =
        (ds.foldl applyDecl p).optionVector.any (fun s => s.base.error)
  | [], _, h => h
  | d :: ds, p, h => by
      rw [List.foldl_cons]
      exact foldl_applyDecl_invariant ds (applyDecl p d) (applyDecl_invariant d p h)

/-- AddOption never lowers the aggregate error. -/
theorem AddOption_error_mono (p : Parser) (f : Char) (d : String) (r : Bool)
    (h : p.error = true) : ((p.AddOption f d r).1).error = true := by
  rw [AddOption_fst_error, h]
  simp

/-- AddOptionArg never lowers the aggregate error. -/
theorem AddOptionArg_error_mono (p : Parser) (f : Char) (d : String) (r : Bool)
    (N : Nat) (conv : List Char → T × Bool) (u : List T)
    (h : p.error = true) : ((p.AddOptionArg f d r N conv u).1).error = true := by
  obtain ⟨-, -, -, -, hp, -⟩ := foldl_oaStep_main conv p.argv p.nbArgs N
    (List.range' 1 (p.nbArgs - 1)) ((OptionArg.init f d N u).SetRequired r, p.error)
  rw [AddOptionArg_fst_error, hp]
  simp [h]

/-- One declaration never lowers the aggregate error. -/
theorem applyDecl_error_mono (d : Decl) (p : Parser) (h : p.error = true) :
    (applyDecl p d).error = true := by
  cases d with
  | opt f de r => exact AddOption_error_mono p f de r h
  | optArg f de r N ok =>
      exact AddOptionArg_error_mono p f de r N (fun t => ((), ok t))
        (List.replicate N ()) h

/-- No sequence of declarations ever lowers the aggregate error. -/
theorem foldl_applyDecl_error_mono :
    ∀ (ds : List Decl) (p : Parser), p.error = true →
      (ds.foldl applyDecl p).error = true
  | [], _, h => h
  | d :: ds, p, h => by
      rw [List.foldl_cons]
      exact foldl_applyDecl_error_mono ds (applyDecl p d) (applyDecl_error_mono d p h)

/-- C5: the Registry's aggregate error flag equals the disjunction of the
declared flags' hasError at construction time (trivially, with no flags and
isValid() true), after each single declaration (plain or value, for any
element type and conversion), and after any sequence of declarations - so it
is true iff at least one declared flag has hasError() true. -/
theorem C5_aggregate_iff :
    (∀ (argv : List (List Char)) (desc : String),
      (Parser.init argv desc).IsCommandLineValid = true ∧
      (Parser.init argv desc).error =
        (Parser.init argv desc).optionVector.any (fun s => s.base.error)) ∧
    (∀ (p : Parser) (f : Char) (d : String) (r : Bool),
      p.error = p.optionVector.any (fun s => s.base.error) →
      ((p.AddOption f d r).1).error =
        ((p.AddOption f d r).1).optionVector.any (fun s => s.base.error)) ∧
    (∀ (U : Type) (p : Parser) (f : Char) (d : String) (r : Bool) (N : Nat)
        (conv : List Char → U × Bool) (u : List U),
      p.error = p.optionVector.any (fun s => s.base.error) →
      ((p.AddOptionArg f d r N conv u).1).error =
        ((p.AddOptionArg f d r N conv u).1).optionVector.any
          (fun s => s.base.error)) ∧
    (∀ (argv : List (List Char)) (desc : String) (ds : List Decl),
      (ds.foldl applyDecl (Parser.init argv desc)).error =
        (ds.foldl applyDecl (Parser.init argv desc)).optionVector.any
          (fun s => s.base.error)) := by
  refine ⟨fun argv desc => ⟨rfl, rfl⟩, ?_, ?_, ?_⟩
  · intro p f d r h
    exact AddOption_invariant p f d r h
  · intro U p f d r N conv u h
    exact AddOptionArg_invariant p f d r N conv u h
  · intro argv desc ds
    exact foldl_applyDecl_invariant ds (Parser.init argv desc) rfl

/-- Witness for C5_aggregate_iff at a concrete input: one required and absent
plain flag, so both sides of the invariant are true. -/
theorem C5_aggregate_iff_witness :
    (((Parser.init [['p']] "").AddOption 'h' "d" true).1).error =
      (((Parser.init [['p']] "").AddOption 'h' "d" true).1).optionVector.any
        (fun s => s.base.error) :=
  C5_aggregate_iff.2.1 (Parser.init [['p']] "") 'h' "d" true rfl

/-- C8: the aggregate error never goes back from true to false: each single
declaration (plain or value) preserves a true error flag, any sequence of
declarations preserves it, and an invalid Registry stays invalid under any
further declarations. -/
theorem C8_aggregate_monotone :
    (∀ (p : Parser) (f : Char) (d : String) (r : Bool),
      p.error = true → ((p.AddOption f d r).1).error = true) ∧
    (∀ (U : Type) (p : Parser) (f : Char) (d : String) (r : Bool) (N : Nat)
        (conv : List Char → U × Bool) (u : List U),
      p.error = true → ((p.AddOptionArg f d r N conv u).1).error = true) ∧
    (∀ (p : Parser) (ds : List Decl), p.error = true →
      (ds.foldl applyDecl p).error = true) ∧
    (∀ (p : Parser) (ds : List Decl),
      (ds.foldl applyDecl p).IsCommandLineValid = false →
      ∀ (ds2 : List Decl),
        ((ds ++ ds2).foldl applyDecl p).IsCommandLineValid = false) := by
  refine ⟨?_, ?_, ?_, ?_⟩
  · intro p f d r h
    exact AddOption_error_mono p f d r h
  · intro U p f d r N conv u h
    exact AddOptionArg_error_mono p f d r N conv u h
  · intro p ds h
    exact foldl_applyDecl_error_mono ds p h
  · intro p ds h ds2
    simp only [Parser.IsCommandLineValid] at h ⊢
    have herr : (ds.foldl applyDecl p).error = true := by
      revert h
      cases (ds.foldl applyDecl p).error <;> simp
    rw [List.foldl_append]
    rw [foldl_applyDecl_error_mono ds2 (ds.foldl applyDecl p) herr]
    rfl

/-- Witness for C8_aggregate_monotone at a concrete input: a Registry made
invalid by a required absent flag stays invalid after a further
declaration. -/
theorem C8_aggregate_monotone_witness :
    (([Decl.opt 'v' "v" false]).foldl applyDecl
        (((Parser.init [['p']] "").AddOption 'h' "d" true).1)).error = true :=
  C8_aggregate_monotone.2.2.1
    (((Parser.init [['p']] "").AddOption 'h' "d" true).1)
    [Decl.opt 'v' "v" false] rfl

/-- Accumulating string fold equals the accumulator followed by the
concatenation of the produced pieces. -/
theorem foldl_append_concatStr {α : Type} (f : α → String) :
    ∀ (l : List α) (acc : String),
      l.foldl (fun a x => a ++ f x) acc = acc ++ concatStr f l
  | [], acc => by simp [concatStr]
  | x :: l, acc => by
      rw [List.foldl_cons, foldl_append_concatStr f l (acc ++ f x)]
      simp only [concatStr]
      rw [String.append_assoc]

/-- The placeholder loop of OptionArg::CLUsage appends placeholders n. -/
theorem foldl_placeholders :
    ∀ (n : Nat) (acc : String),
      (List.range n).foldl (fun a _ => a ++ " x") acc = acc ++ placeholders n
  | 0, acc => by simp [placeholders]
  | n + 1, acc => by
      rw [List.range_succ, List.foldl_append, foldl_placeholders n acc,
        List.foldl_cons, List.foldl_nil]
      simp only [placeholders]
      rw [String.append_assoc]

/-- The virtual CLUsage emits exactly the spec-side command-template
fragment. -/
theorem CLUsage_eq_specFragment : ∀ (s : StoredOpt), s.CLUsage = specFragment s
  | .plain _ => rfl
  | .withArgs o n => by
      simp only [StoredOpt.CLUsage, specFragment]
      rw [foldl_placeholders]

/-- The detail line emitted by Usage is exactly the spec-side detail line. -/
theorem detail_eq_specDetailLine : ∀ (s : StoredOpt),
    s.detail = specDetailLine s := fun _ => rfl

/-- Pointwise equal piece functions concatenate to the same string. -/
theorem concatStr_congr {α : Type} (f g : α → String) (h : ∀ x, f x = g x) :
    ∀ l, concatStr f l = concatStr g l
  | [] => rfl
  | x :: l => by
      simp only [concatStr]
      rw [h x, concatStr_congr f g h l]

/-- C7 counterexample: the error marker written by Parser::Usage is five
spaces, an asterisk and a tab, not a single space before the asterisk. At a
concrete Registry whose only flag (required 'h') is absent and hence in
error, the full usage string and its detail line are shown; the detail line
differs from the line the claim prescribes. -/
theorem C7_counterexample :
    (((Parser.init [['p', 'r', 'o', 'g']] "desc").AddOption 'h' "help" true).1).Usage =
      "\nUtility prog :\n\ndesc\n\nUsage: \n [shell]$ prog [-h]\n     *\t-h : help (Required).\n* indicate(s) wrong argument(s).\n" ∧
    ((((Parser.init [['p', 'r', 'o', 'g']] "desc").AddOption 'h' "help" true).1).optionVector.map StoredOpt.detail ≠
      [" *\t-h : help (Required).\n"]) := by
  constructor
  · rfl
  · decide

/-- C7 (amended): the usage text is fully determined by the program-name
token, the Registry description and the declared flags' final state, in
declaration order: a header, then per flag a fragment " [-c]" (plain) or
" [-c x .. x]" with one placeholder per arity slot, then per flag a detail
line whose marker is five spaces, '*' and a tab when hasError() is true and
a tab otherwise, followed by "-c : description (Required|Optional).", and a
legend line about '*'. -/
theorem C7_usage_deterministic (p : Parser) :
    p.Usage = usageSpecSide (argAt p.argv 0) p.description p.optionVector := by
  simp only [Parser.Usage, usageSpecSide]
  rw [foldl_append_concatStr StoredOpt.CLUsage,
    foldl_append_concatStr StoredOpt.detail,
    concatStr_congr StoredOpt.CLUsage specFragment CLUsage_eq_specFragment,
    concatStr_congr StoredOpt.detail specDetailLine detail_eq_specDetailLine]

/-- C9 counterexample: the OptionArg constructor does not initialize the
value array (for arithmetic T the slots keep whatever was in memory,
modeled by the uninit parameter). With construction-time contents [7], the
slot queried right after construction, and after a declaration whose flag
never matches, holds 7, not the type default 0. -/
theorem C9_counterexample :
    (OptionArg.init 's' "d" 1 [(7 : Nat)]).GetArgument 0 = 7 ∧
    ((Parser.AddOptionArg (Parser.init [['p']] "") 's' "d" false 1 convLen
        [(7 : Nat)]).2).GetArgument 0 = 7 ∧
    (7 : Nat) ≠ (default : Nat) := by
  exact ⟨rfl, rfl, by decide⟩

/-- C9 (amended): after construction the value slots hold exactly the
construction-time (indeterminate) memory contents, and when no token matches
the flag during the declaration scan the slots still hold those same
contents afterwards - the library itself never initializes them to the type
default. -/
theorem C9_uninitialized_retention (f : Char) (d : String) (N : Nat)
    (u : List T) (p : Parser) (r : Bool) (conv : List Char → T × Bool)
    (hnomatch : ∀ i, 1 ≤ i → i < p.nbArgs → oaMatch p.argv f i = false) :
    (OptionArg.init f d N u).argVector = u ∧
    ((p.AddOptionArg f d r N conv u).2).argVector = u := by
  refine ⟨rfl, ?_⟩
  rw [AddOptionArg_snd_argVector]
  rw [foldl_oaStep_no_match conv p.argv p.nbArgs N (List.range' 1 (p.nbArgs - 1))
    ((OptionArg.init f d N u).SetRequired r, p.error) ?_]
  · rfl
  · intro i hi
    have hm := List.mem_range'_1.mp hi
    exact hnomatch i (by omega) (by omega)

/-- Witness for C9_uninitialized_retention at a concrete input: flag 's'
matches no token, the slot keeps the construction-time content 7. -/
theorem C9_uninitialized_retention_witness :
    (OptionArg.init 's' "d" 1 [(7 : Nat)]).argVector = [7] ∧
    ((Parser.AddOptionArg (Parser.init [['p'], ['-', 'x']] "") 's' "d" false 1
        convLen [(7 : Nat)]).2).argVector = [7] :=
  C9_uninitialized_retention 's' "d" 1 [(7 : Nat)]
    (Parser.init [['p'], ['-', 'x']] "") false convLen
    (fun i h1 h2 => by
      have h3 : i < 2 := h2
      have h4 : i = 1 := by omega
      subst h4
      decide)

end yaap
